import Mathlib

/-!
Verification of the circle-drawing GIS tool (`src/main.py`) against its
design specification.

The file shallowly embeds the parts of the program the specification talks
about:

* `create_circle_geometry` — the geometry builder (`CircleDrawTool.create_circle_geometry`),
  over real numbers;
* `create_circle` — the commit path of a finished drag
  (`CircleDrawTool.create_circle`), returning the updated feature list,
  the layer's edit-session flag, and the trace of side effects performed;
* `canvasPressEvent` / `canvasReleaseEvent` — the interaction controller's
  state machine (`CircleDrawTool`);
* `save_to_shapefile` / `replace_memory_layer_with_shapefile` — the
  persistence bridge, modelled at the level of layer handles and the
  project registry (`QGISMainWindow`);
* `export_card` and `CardExportWorker` — the export pipeline: parameter
  capture at submission, the worker's emitted signal sequence
  (`CardExportWorker.run`), and the outputs it computes.

Machine reals (Python floats) are modelled as real numbers `ℝ`; trig and
square roots are the exact real functions.
-/

open Finset

/-- A map point, mirroring `QgsPointXY`: an `(x, y)` pair of coordinates. -/
structure PointXY where
  x : ℝ
  y : ℝ

/-- Euclidean distance as computed by the source at both call sites
(`update_rubber_band` and `create_circle`):
`dx = q.x - p.x`, `dy = q.y - p.y`, `sqrt (dx*dx + dy*dy)`. -/
noncomputable def distance (p q : PointXY) : ℝ :=
  Real.sqrt ((q.x - p.x) * (q.x - p.x) + (q.y - p.y) * (q.y - p.y))

/-- The point sampled at index `i` by `create_circle_geometry`'s loop:
`angle = 2*pi*i/segments`, `(center.x + radius*cos angle, center.y + radius*sin angle)`. -/
noncomputable def circlePoint (center : PointXY) (radius : ℝ) (segments i : ℕ) : PointXY :=
  ⟨center.x + radius * Real.cos (2 * Real.pi * i / segments),
   center.y + radius * Real.sin (2 * Real.pi * i / segments)⟩

/-- Model of `CircleDrawTool.create_circle_geometry(center, radius, segments)`:
the single ring of the polygon, sampling `segments + 1` points
(`for i in range(segments + 1)`). -/
noncomputable def create_circle_geometry (center : PointXY) (radius : ℝ) (segments : ℕ) :
    List PointXY :=
  (List.range (segments + 1)).map (circlePoint center radius segments)

/-- Attribute types of the layer schema (`QVariant.Int` / `QVariant.Double`). -/
inductive FieldType where
  | intField
  | doubleField
deriving DecidableEq

/-- The schema installed by `QGISMainWindow.create_circle_layer`:
`QgsField("id", QVariant.Int)` and `QgsField("radius", QVariant.Double)`. -/
def circleLayerFields : List (String × FieldType) :=
  [("id", FieldType.intField), ("radius", FieldType.doubleField)]

/-- A circle feature: the polygon ring plus the two schema attributes.
`QgsFeature(fields)` starts with every attribute NULL, modelled as `none`. -/
structure Feature where
  geometry : List PointXY
  id_attr : Option Int
  radius_attr : Option ℝ

/-- Model of `QgsFeature(self.layer.fields())`: a fresh feature, all attributes NULL,
no geometry yet. -/
def QgsFeature_new : Feature :=
  { geometry := [], id_attr := none, radius_attr := none }

/-- The observable side effects of the commit path of
`CircleDrawTool.create_circle`, in the order the source performs them. -/
inductive Event where
  | startEditing
  | addFeature
  | commitChanges
  | triggerRepaint
  | canvasRefresh
  | saveToShapefile
deriving DecidableEq

/-- Model of `CircleDrawTool.create_circle(start_point, end_point)` acting on the bound
layer, given as its feature list `layer` and its edit-session flag
`editable` (`layer.isEditable()`).  Returns the layer's features and edit flag
afterwards, together with the trace of side effects:

* `radius = sqrt(dx*dx + dy*dy)`; if `radius < 0.001` the method returns at
  once — no feature, no events;
* otherwise it builds the geometry with 36 segments, fills a fresh feature
  (`setGeometry`, then `setAttribute("radius", radius)` — the `id` attribute
  is never touched), opens an edit session if none is open, adds the feature
  (`addFeature` on a memory/ogr layer in an edit session succeeds, so
  `result` is true), commits, repaints, refreshes the canvas, and calls
  `main_window.save_to_shapefile()`. -/
noncomputable def create_circle (layer : List Feature) (editable : Bool)
    (start_point end_point : PointXY) : List Feature × Bool × List Event :=
  let radius := distance start_point end_point
  if radius < 0.001 then (layer, editable, [])
  else
    let circle_geom := create_circle_geometry start_point radius 36
    let feature := { QgsFeature_new with geometry := circle_geom, radius_attr := some radius }
    (layer ++ [feature], false,
      (if editable then [] else [Event.startEditing]) ++
        [Event.addFeature, Event.commitChanges,
         Event.triggerRepaint, Event.canvasRefresh, Event.saveToShapefile])

/-- Repeated commits: apply `create_circle` to a list of drags in order. -/
noncomputable def create_circles (layer : List Feature) (editable : Bool) :
    List (PointXY × PointXY) → List Feature × Bool
  | [] => (layer, editable)
  | (sp, ep) :: rest =>
    let out := create_circle layer editable sp ep
    create_circles out.1 out.2.1 rest

/-- The handle-level state the persistence bridge manipulates: which layer
handle the Host Window's `circle_layer` field holds, which handles are
registered in the project (`QgsProject` registry), which layers the canvas
shows, and which layer the active `CircleDrawTool` is bound to. -/
structure HostState where
  circle_layer : ℕ
  project_layers : List ℕ
  canvas_layers : List ℕ
  map_tool_layer : ℕ
deriving DecidableEq

/-- Model of `QGISMainWindow.replace_memory_layer_with_shapefile()`.
The source first calls `project.removeMapLayer(circle_layer.id())`, then
opens the just-written file as a new layer (handle `newLayer`, validity
`reopenValid = shapefile_layer.isValid()`).  Only if valid does it register
the new layer, repoint `circle_layer`, rebind a fresh `CircleDrawTool`, and
reset the canvas layer list; if invalid it only logs. -/
def replace_memory_layer_with_shapefile (s : HostState) (newLayer : ℕ)
    (reopenValid : Bool) : HostState :=
  let removed := { s with project_layers := s.project_layers.filter (· ≠ s.circle_layer) }
  if reopenValid then
    { circle_layer := newLayer,
      project_layers := removed.project_layers ++ [newLayer],
      canvas_layers := [newLayer],
      map_tool_layer := newLayer }
  else removed

/-- Model of `QGISMainWindow.save_to_shapefile()`: `writeOk` models
`error[0] == QgsVectorFileWriter.NoError`.  On write success the source
calls `replace_memory_layer_with_shapefile()`; on write failure it only
logs, leaving every reference untouched.  The write itself never modifies
the in-memory layer's features. -/
def save_to_shapefile (s : HostState) (writeOk : Bool) (newLayer : ℕ)
    (reopenValid : Bool) : HostState :=
  if writeOk then replace_memory_layer_with_shapefile s newLayer reopenValid else s

/-- Mouse buttons distinguished by the tool (`Qt.LeftButton` vs anything else). -/
inductive MouseButton where
  | left
  | other
deriving DecidableEq

/-- The `CircleDrawTool`'s mutable state: the layer it draws into (features
plus edit flag) and the interaction fields set in `__init__`
(`rubber_band = None`, `start_point = None`, `drawing = False`). -/
structure ToolState where
  layer : List Feature
  editable : Bool
  drawing : Bool
  start_point : Option PointXY
  rubber_band : Option Unit

/-- The tool as constructed by `CircleDrawTool.__init__`. -/
def initToolState (layer : List Feature) (editable : Bool) : ToolState :=
  { layer := layer, editable := editable,
    drawing := false, start_point := none, rubber_band := none }

/-- Model of `CircleDrawTool.canvasPressEvent`: on a left press, record the start
point, enter the drawing state, and allocate a rubber band. -/
def canvasPressEvent (s : ToolState) (button : MouseButton) (pos : PointXY) : ToolState :=
  if button = MouseButton.left then
    { s with start_point := some pos, drawing := true, rubber_band := some () }
  else s

/-- Model of `CircleDrawTool.canvasReleaseEvent`: on a left release while drawing,
call `create_circle(self.start_point, end_point)`, then remove the rubber
band (if any), clear `drawing` and `start_point`.  Any other event leaves
the state alone.  `none` models the `AttributeError` the source would raise
if `start_point` were `None` while `drawing` is set (unreachable from the
press handler). -/
noncomputable def canvasReleaseEvent (s : ToolState) (button : MouseButton)
    (end_point : PointXY) : Option ToolState :=
  if button = MouseButton.left ∧ s.drawing then
    match s.start_point with
    | none => none
    | some sp =>
      let out := create_circle s.layer s.editable sp end_point
      some { layer := out.1, editable := out.2.1,
             drawing := false, start_point := none, rubber_band := none }
  else some s

/-- Sum of `g` over consecutive vertex pairs of a ring (the shoelace-style
iteration over edges of a closed polygon boundary). -/
noncomputable def pairSum (g : PointXY → PointXY → ℝ) : List PointXY → ℝ
  | p :: q :: rest => g p q + pairSum g (q :: rest)
  | _ => 0

/-- Twice the signed area of a ring (shoelace formula). -/
noncomputable def crossSum (ring : List PointXY) : ℝ :=
  pairSum (fun p q => p.x * q.y - q.x * p.y) ring

/-- Numerator of the x coordinate of the area centroid of a ring. -/
noncomputable def centroidXnum (ring : List PointXY) : ℝ :=
  pairSum (fun p q => (p.x + q.x) * (p.x * q.y - q.x * p.y)) ring

/-- Numerator of the y coordinate of the area centroid of a ring. -/
noncomputable def centroidYnum (ring : List PointXY) : ℝ :=
  pairSum (fun p q => (p.y + q.y) * (p.x * q.y - q.x * p.y)) ring

/-- Modelled from the spec: the external geometry engine's polygon centroid
(`QgsGeometry.centroid().asPoint()`, not part of this repository).  The spec's
data model says a circle feature's center is "derivable as polygon centroid";
this is the standard area centroid of a closed ring,
`C = (1/(6A)) * Σ (v_i + v_(i+1)) * cross_i` with `2A = Σ cross_i`. -/
noncomputable def ringCentroid (ring : List PointXY) : PointXY :=
  ⟨centroidXnum ring / (3 * crossSum ring), centroidYnum ring / (3 * crossSum ring)⟩

/-- A layout extent rectangle, mirroring `QgsRectangle`. -/
structure QgsRectangle where
  xmin : ℝ
  ymin : ℝ
  xmax : ℝ
  ymax : ℝ

/-- Mirror of `QgsRectangle.width()`. -/
noncomputable def QgsRectangle.width (r : QgsRectangle) : ℝ := r.xmax - r.xmin

/-- Mirror of `QgsRectangle.grow(d)`: expand the rectangle by `d` on each side. -/
noncomputable def QgsRectangle.grow (r : QgsRectangle) (d : ℝ) : QgsRectangle :=
  ⟨r.xmin - d, r.ymin - d, r.xmax + d, r.ymax + d⟩

/-- Modelled from the spec: the external geometry engine's
`QgsGeometry.boundingBox()` (not part of this repository) — the smallest
axis-aligned rectangle containing every vertex of the ring. -/
noncomputable def boundingBox : List PointXY → QgsRectangle
  | [] => ⟨0, 0, 0, 0⟩
  | p :: rest =>
    rest.foldl
      (fun r q => ⟨min r.xmin q.x, min r.ymin q.y, max r.xmax q.x, max r.ymax q.y⟩)
      ⟨p.x, p.y, p.x, p.y⟩

/-- The export job's parameters, exactly the fields `CardExportWorker.__init__`
stores: the live project and layer references (handles), and the
value-captured geometry, center, radius attribute, and output path. -/
structure CardExportWorker where
  project : ℕ
  circle_layer : ℕ
  geom : List PointXY
  center : PointXY
  radius : Option ℝ
  output_path : String

/-- Outcome of `QGISMainWindow.export_card()`: one of the two user-facing
warnings, or a submitted worker. -/
inductive ExportCardResult where
  | warnNoLayer
  | warnNoCircles
  | submitted (worker : CardExportWorker)

/-- Model of `QGISMainWindow.export_card()`.  Input: the window's `circle_layer`
(`none` models `self.circle_layer is None`), given as its handle and its
feature list.  The source warns and returns if the layer is missing or has
no features; otherwise it takes `features[-1]`, reads its geometry, centroid
and `"radius"` attribute, and constructs the worker with the fixed output
path `card_export.pdf` (under the application directory). -/
noncomputable def export_card (circle_layer : Option (ℕ × List Feature)) : ExportCardResult :=
  match circle_layer with
  | none => ExportCardResult.warnNoLayer
  | some (lid, features) =>
    match features.getLast? with
    | none => ExportCardResult.warnNoCircles
    | some lastFeature =>
      ExportCardResult.submitted
        { project := 0, circle_layer := lid, geom := lastFeature.geometry,
          center := ringCentroid lastFeature.geometry, radius := lastFeature.radius_attr,
          output_path := "card_export.pdf" }

/-- Outputs computed by `CardExportWorker.run` from its stored fields: the
data shown in the label (`self.center`, `self.radius`), the map frame's
extent (`self.geom.boundingBox()` grown by half its width), the layer list
handed to the map frame, and the PDF path.  The second argument is the live
feature store (handle → features) as it stands while the job runs: the run
method never consults it for any of these outputs. -/
noncomputable def worker_run_outputs (w : CardExportWorker)
    (_liveStore : ℕ → List Feature) : PointXY × Option ℝ × QgsRectangle × List ℕ × String :=
  let rect := boundingBox w.geom
  let grown := rect.grow (rect.width * 0.5)
  (w.center, w.radius, grown, [w.circle_layer], w.output_path)

/-- A signal emitted by `CardExportWorker`. -/
inductive ExportSignal where
  | progress (value : ℕ)
  | finished
deriving DecidableEq

/-- The five progress values `CardExportWorker.run` emits, in source order. -/
def progressValues : List ℕ := [10, 30, 60, 80, 100]

/-- The signal sequence emitted by one execution of `CardExportWorker.run`.
The body is `try: emit 10; work; emit 30; work; emit 60; work; emit 80;
work; emit 100 finally: finished.emit()`.  `failAt = some k` means the work
segment after the `(k+1)`-th progress emission raises (k ranges over the 4
work segments); `none` means no step raises.  Either way the `finally`
block emits `finished` exactly once, after the last progress emission. -/
def run_signals (failAt : Option (Fin 4)) : List ExportSignal :=
  match failAt with
  | none => progressValues.map ExportSignal.progress ++ [ExportSignal.finished]
  | some k => (progressValues.take (k + 1)).map ExportSignal.progress ++ [ExportSignal.finished]

/-- The subsequence of progress values in a signal list. -/
def progressOf (signals : List ExportSignal) : List ℕ :=
  signals.filterMap fun s =>
    match s with
    | ExportSignal.progress v => some v
    | ExportSignal.finished => none

/-- The property C1 asserts of `create_circle_geometry center r n`: a single
ring of exactly `n+1` vertices, vertex `i` at angle `2πi/n` on the circle,
first and last vertices equal, and every vertex at distance `r` from the
center. -/
def circle_geometry_ok (center : PointXY) (r : ℝ) (n : ℕ) : Prop :=
  (create_circle_geometry center r n).length = n + 1 ∧
  (∀ i, i < n + 1 →
    (create_circle_geometry center r n)[i]? =
      some ⟨center.x + r * Real.cos (2 * Real.pi * i / n),
            center.y + r * Real.sin (2 * Real.pi * i / n)⟩) ∧
  (create_circle_geometry center r n).head? = (create_circle_geometry center r n).getLast? ∧
  ∀ p ∈ create_circle_geometry center r n, distance center p = r

/-- The host state right after `setup_project`: one (memory) layer, handle 0,
registered in the project, shown on the canvas, and bound to the draw tool. -/
def hostExample : HostState :=
  { circle_layer := 0, project_layers := [0], canvas_layers := [0], map_tool_layer := 0 }

/-! ### Helper lemmas: sums of sines and cosines over a full period -/

/-- Σ cos(2πi/n) over i < n vanishes (n ≥ 2): telescoping against sin(π/n). -/
lemma sum_cos_zero (n : ℕ) (hn : 2 ≤ n) :
    ∑ i ∈ Finset.range n, Real.cos (2 * Real.pi * i / n) = 0 := by
  have hnpos : (0:ℝ) < n := by positivity
  have hs : 0 < Real.sin (Real.pi / n) := by
    apply Real.sin_pos_of_pos_of_lt_pi
    · positivity
    · rw [div_lt_iff₀ hnpos]
      have h2n : (2:ℝ) ≤ n := by exact_mod_cast hn
      nlinarith [mul_pos Real.pi_pos (by linarith : (0:ℝ) < (n:ℝ) - 1)]
  have key : ∀ i : ℕ,
      2 * Real.sin (Real.pi / n) * Real.cos (2 * Real.pi * i / n)
        = Real.sin (2 * Real.pi * (i+1) / n - Real.pi / n)
          - Real.sin (2 * Real.pi * i / n - Real.pi / n) := by
    intro i
    have h1 : 2 * Real.pi * ((i:ℝ)+1) / n - Real.pi / n
        = (2 * Real.pi * i / n) + Real.pi / n := by
      field_simp
      ring
    rw [h1, Real.sin_add, Real.sin_sub]
    ring
  have htel := Finset.sum_range_sub (fun i => Real.sin (2 * Real.pi * i / n - Real.pi / n)) n
  have hmul : 2 * Real.sin (Real.pi / n) * ∑ i ∈ Finset.range n, Real.cos (2 * Real.pi * i / n)
      = Real.sin (2 * Real.pi * n / n - Real.pi / n)
        - Real.sin (2 * Real.pi * 0 / n - Real.pi / n) := by
    rw [Finset.mul_sum, Finset.sum_congr rfl (fun i _ => key i)]
    push_cast at htel ⊢
    exact htel
  have h2 : 2 * Real.pi * (n:ℝ) / n = 2 * Real.pi := by field_simp
  rw [h2] at hmul
  have h4 : Real.sin (2 * Real.pi - Real.pi / n) = - Real.sin (Real.pi / n) := by
    rw [Real.sin_sub, Real.sin_two_pi, Real.cos_two_pi]
    ring
  have h5 : (2 : ℝ) * Real.pi * 0 / n - Real.pi / n = -(Real.pi / n) := by ring
  rw [h4, h5, Real.sin_neg] at hmul
  have hz : 2 * Real.sin (Real.pi / n) * ∑ i ∈ Finset.range n, Real.cos (2 * Real.pi * i / n) = 0 := by
    rw [hmul]; ring
  have h6 : (2 : ℝ) * Real.sin (Real.pi / n) ≠ 0 := by positivity
  exact (mul_eq_zero.mp hz).resolve_left h6

/-- Σ sin(2πi/n) over i < n vanishes (n ≥ 2). -/
lemma sum_sin_zero (n : ℕ) (hn : 2 ≤ n) :
    ∑ i ∈ Finset.range n, Real.sin (2 * Real.pi * i / n) = 0 := by
  have hnpos : (0:ℝ) < n := by positivity
  have hs : 0 < Real.sin (Real.pi / n) := by
    apply Real.sin_pos_of_pos_of_lt_pi
    · positivity
    · rw [div_lt_iff₀ hnpos]
      have h2n : (2:ℝ) ≤ n := by exact_mod_cast hn
      nlinarith [mul_pos Real.pi_pos (by linarith : (0:ℝ) < (n:ℝ) - 1)]
  have key : ∀ i : ℕ,
      2 * Real.sin (Real.pi / n) * Real.sin (2 * Real.pi * i / n)
        = (fun j : ℕ => -Real.cos (2 * Real.pi * j / n - Real.pi / n)) (i+1)
          - (fun j : ℕ => -Real.cos (2 * Real.pi * j / n - Real.pi / n)) i := by
    intro i
    simp only
    have h1 : 2 * Real.pi * ((i:ℝ)+1) / n - Real.pi / n
        = (2 * Real.pi * i / n) + Real.pi / n := by
      field_simp
      ring
    push_cast
    rw [h1, Real.cos_add, Real.cos_sub]
    ring
  have htel := Finset.sum_range_sub (fun j : ℕ => -Real.cos (2 * Real.pi * j / n - Real.pi / n)) n
  have hmul : 2 * Real.sin (Real.pi / n) * ∑ i ∈ Finset.range n, Real.sin (2 * Real.pi * i / n)
      = -Real.cos (2 * Real.pi * n / n - Real.pi / n)
        + Real.cos (2 * Real.pi * 0 / n - Real.pi / n) := by
    rw [Finset.mul_sum, Finset.sum_congr rfl (fun i _ => key i), htel]
    ring_nf
  have h2 : 2 * Real.pi * (n:ℝ) / n = 2 * Real.pi := by field_simp
  rw [h2] at hmul
  have h4 : Real.cos (2 * Real.pi - Real.pi / n) = Real.cos (Real.pi / n) := by
    rw [Real.cos_sub, Real.sin_two_pi, Real.cos_two_pi]
    ring
  have h5 : (2 : ℝ) * Real.pi * 0 / n - Real.pi / n = -(Real.pi / n) := by ring
  rw [h4, h5, Real.cos_neg] at hmul
  have hz : 2 * Real.sin (Real.pi / n) * ∑ i ∈ Finset.range n, Real.sin (2 * Real.pi * i / n) = 0 := by
    rw [hmul]; ring
  have h6 : (2 : ℝ) * Real.sin (Real.pi / n) ≠ 0 := by positivity
  exact (mul_eq_zero.mp hz).resolve_left h6

/-! ### Helper lemmas: `pairSum` over a sampled ring -/

lemma pairSum_append_last (g : PointXY → PointXY → ℝ) :
    ∀ (l : List PointXY) (a b : PointXY),
      pairSum g (l ++ [a, b]) = pairSum g (l ++ [a]) + g a b := by
  intro l
  induction l with
  | nil => intro a b; simp [pairSum]
  | cons p l' ih =>
    intro a b
    cases l' with
    | nil => simp [pairSum]
    | cons q t =>
      have h1 : (p :: q :: t) ++ [a, b] = p :: ((q :: t) ++ [a, b]) := by simp
      have h2 : (p :: q :: t) ++ [a] = p :: ((q :: t) ++ [a]) := by simp
      rw [h1, h2]
      have hq1 : (q :: t) ++ [a, b] = q :: (t ++ [a, b]) := by simp
      have hq2 : (q :: t) ++ [a] = q :: (t ++ [a]) := by simp
      rw [hq1, hq2]
      show g p q + pairSum g (q :: (t ++ [a, b]))
        = g p q + pairSum g (q :: (t ++ [a])) + g a b
      have := ih a b
      rw [hq1, hq2] at this
      rw [this]
      ring

lemma pairSum_range_map (g : PointXY → PointXY → ℝ) (f : ℕ → PointXY) (n : ℕ) :
    pairSum g ((List.range (n+1)).map f) = ∑ i ∈ Finset.range n, g (f i) (f (i+1)) := by
  induction n with
  | zero => simp [pairSum, show List.range 1 = [0] from rfl]
  | succ n ih =>
    have h1 : List.range (n+1+1) = List.range n ++ [n, n+1] := by
      rw [List.range_succ, List.range_succ, List.append_assoc]
      rfl
    have h2 : List.range (n+1) = List.range n ++ [n] := by rw [List.range_succ]
    rw [h1, List.map_append]
    show pairSum g ((List.range n).map f ++ [f n, f (n+1)]) = _
    rw [pairSum_append_last]
    have h3 : (List.range n).map f ++ [f n] = (List.range (n+1)).map f := by
      rw [h2, List.map_append]
      rfl
    rw [h3, ih, Finset.sum_range_succ]

lemma circlePoint_x (c : PointXY) (r : ℝ) (n i : ℕ) :
    (circlePoint c r n i).x = c.x + r * Real.cos (2 * Real.pi * i / n) := rfl

lemma circlePoint_y (c : PointXY) (r : ℝ) (n i : ℕ) :
    (circlePoint c r n i).y = c.y + r * Real.sin (2 * Real.pi * i / n) := rfl

lemma sum_range_sub_zero (F : ℕ → ℝ) (n : ℕ) (h : F n = F 0) :
    ∑ i ∈ Finset.range n, (F (i+1) - F i) = 0 := by
  rw [Finset.sum_range_sub, h, sub_self]

/-- The area centroid of the ring sampled by `create_circle_geometry` is its
center, for any positive radius and at least 3 segments. -/
theorem ringCentroid_circle (c : PointXY) (r : ℝ) (n : ℕ) (hr : 0 < r) (hn : 3 ≤ n) :
    ringCentroid (create_circle_geometry c r n) = c := by
  have hn2 : 2 ≤ n := by omega
  have hn0 : (n:ℝ) ≠ 0 := Nat.cast_ne_zero.mpr (by omega)
  have hnpos : (0:ℝ) < n := by positivity
  have e1 : 2 * Real.pi * (n:ℝ) / (n:ℝ) = 2 * Real.pi := by field_simp
  set d := Real.sin (2 * Real.pi / n) with hd_def
  have hd : 0 < d := by
    rw [hd_def]
    apply Real.sin_pos_of_pos_of_lt_pi
    · positivity
    · rw [div_lt_iff₀ hnpos]
      have h3n : (3:ℝ) ≤ n := by exact_mod_cast hn
      nlinarith [mul_pos Real.pi_pos (by linarith : (0:ℝ) < (n:ℝ) - 2)]
  have hD : ∀ i : ℕ,
      Real.cos (2 * Real.pi * i / n) * Real.sin (2 * Real.pi * (↑i+1) / n)
        - Real.cos (2 * Real.pi * (↑i+1) / n) * Real.sin (2 * Real.pi * i / n) = d := by
    intro i
    have hang : 2 * Real.pi * ((i:ℝ)+1) / n - 2 * Real.pi * (i:ℝ) / n = 2 * Real.pi / n := by
      field_simp
      ring
    have hsub := Real.sin_sub (2 * Real.pi * ((i:ℝ)+1) / n) (2 * Real.pi * (i:ℝ) / n)
    rw [hang] at hsub
    rw [hd_def]
    linear_combination -hsub
  have htelS : ∑ i ∈ Finset.range n,
      (Real.sin (2 * Real.pi * (↑i+1) / ↑n) - Real.sin (2 * Real.pi * ↑i / ↑n)) = 0 := by
    have h := sum_range_sub_zero (fun i : ℕ => Real.sin (2 * Real.pi * ↑i / ↑n)) n
      (by simp only; rw [e1]; simp [Real.sin_two_pi])
    push_cast at h
    exact h
  have htelC : ∑ i ∈ Finset.range n,
      (Real.cos (2 * Real.pi * ↑i / ↑n) - Real.cos (2 * Real.pi * (↑i+1) / ↑n)) = 0 := by
    have h := sum_range_sub_zero (fun i : ℕ => Real.cos (2 * Real.pi * ↑i / ↑n)) n
      (by simp only; rw [e1]; simp [Real.cos_two_pi])
    push_cast at h
    have h2 := neg_eq_zero.mpr h
    rw [← Finset.sum_neg_distrib] at h2
    simpa using h2
  have htelU : ∑ i ∈ Finset.range n,
      (Real.cos (2 * Real.pi * (↑i+1) / ↑n) * Real.sin (2 * Real.pi * (↑i+1) / ↑n)
        - Real.cos (2 * Real.pi * ↑i / ↑n) * Real.sin (2 * Real.pi * ↑i / ↑n)) = 0 := by
    have h := sum_range_sub_zero
      (fun i : ℕ => Real.cos (2 * Real.pi * ↑i / ↑n) * Real.sin (2 * Real.pi * ↑i / ↑n)) n
      (by simp only; rw [e1]; simp [Real.sin_two_pi, Real.cos_two_pi])
    push_cast at h
    exact h
  have htelU' : ∑ i ∈ Finset.range n,
      (Real.cos (2 * Real.pi * ↑i / ↑n) * Real.sin (2 * Real.pi * ↑i / ↑n)
        - Real.cos (2 * Real.pi * (↑i+1) / ↑n) * Real.sin (2 * Real.pi * (↑i+1) / ↑n)) = 0 := by
    have h2 := neg_eq_zero.mpr htelU
    rw [← Finset.sum_neg_distrib] at h2
    simpa using h2
  have htelC2 : ∑ i ∈ Finset.range n,
      (Real.cos (2 * Real.pi * ↑i / ↑n) * Real.cos (2 * Real.pi * ↑i / ↑n)
        - Real.cos (2 * Real.pi * (↑i+1) / ↑n) * Real.cos (2 * Real.pi * (↑i+1) / ↑n)) = 0 := by
    have h := sum_range_sub_zero
      (fun i : ℕ => Real.cos (2 * Real.pi * ↑i / ↑n) * Real.cos (2 * Real.pi * ↑i / ↑n)) n
      (by simp only; rw [e1]; simp [Real.cos_two_pi])
    push_cast at h
    have h2 := neg_eq_zero.mpr h
    rw [← Finset.sum_neg_distrib] at h2
    simpa using h2
  have htelS2 : ∑ i ∈ Finset.range n,
      (Real.sin (2 * Real.pi * (↑i+1) / ↑n) * Real.sin (2 * Real.pi * (↑i+1) / ↑n)
        - Real.sin (2 * Real.pi * ↑i / ↑n) * Real.sin (2 * Real.pi * ↑i / ↑n)) = 0 := by
    have h := sum_range_sub_zero
      (fun i : ℕ => Real.sin (2 * Real.pi * ↑i / ↑n) * Real.sin (2 * Real.pi * ↑i / ↑n)) n
      (by simp only; rw [e1]; simp [Real.sin_two_pi])
    push_cast at h
    exact h
  have hC : ∑ i ∈ Finset.range n, Real.cos (2 * Real.pi * ↑i / ↑n) = 0 := sum_cos_zero n hn2
  have hS : ∑ i ∈ Finset.range n, Real.sin (2 * Real.pi * ↑i / ↑n) = 0 := sum_sin_zero n hn2
  have hCs : ∑ i ∈ Finset.range n, Real.cos (2 * Real.pi * (↑i+1) / ↑n) = 0 := by
    have h := Finset.sum_sub_distrib (f := fun i : ℕ => Real.cos (2 * Real.pi * (↑i+1) / ↑n))
      (g := fun i : ℕ => Real.cos (2 * Real.pi * ↑i / ↑n)) (s := Finset.range n)
    have htel : ∑ i ∈ Finset.range n,
        (Real.cos (2 * Real.pi * (↑i+1) / ↑n) - Real.cos (2 * Real.pi * ↑i / ↑n)) = 0 := by
      have h' := sum_range_sub_zero (fun i : ℕ => Real.cos (2 * Real.pi * ↑i / ↑n)) n
        (by simp only; rw [e1]; simp [Real.cos_two_pi])
      push_cast at h'
      exact h'
    rw [htel, hC] at h
    linarith
  have hSs : ∑ i ∈ Finset.range n, Real.sin (2 * Real.pi * (↑i+1) / ↑n) = 0 := by
    have h := Finset.sum_sub_distrib (f := fun i : ℕ => Real.sin (2 * Real.pi * (↑i+1) / ↑n))
      (g := fun i : ℕ => Real.sin (2 * Real.pi * ↑i / ↑n)) (s := Finset.range n)
    rw [htelS, hS] at h
    linarith
  have hcross : crossSum (create_circle_geometry c r n) = n * (r^2 * d) := by
    rw [crossSum, create_circle_geometry, pairSum_range_map]
    have key : ∀ i ∈ Finset.range n,
        (circlePoint c r n i).x * (circlePoint c r n (i+1)).y
          - (circlePoint c r n (i+1)).x * (circlePoint c r n i).y
        = (c.x*r) * (Real.sin (2 * Real.pi * (↑i+1) / ↑n) - Real.sin (2 * Real.pi * ↑i / ↑n))
          + (c.y*r) * (Real.cos (2 * Real.pi * ↑i / ↑n) - Real.cos (2 * Real.pi * (↑i+1) / ↑n))
          + r^2 * d := by
      intro i _
      have h := hD i
      simp only [circlePoint_x, circlePoint_y]
      push_cast
      linear_combination (r^2) * h
    rw [Finset.sum_congr rfl key]
    simp only [Finset.sum_add_distrib, ← Finset.mul_sum]
    rw [htelS, htelC, Finset.sum_const, Finset.card_range, nsmul_eq_mul]
    ring
  have hX : centroidXnum (create_circle_geometry c r n) = 3 * c.x * ((n:ℝ) * (r^2 * d)) := by
    rw [centroidXnum, create_circle_geometry, pairSum_range_map]
    have key : ∀ i ∈ Finset.range n,
        ((circlePoint c r n i).x + (circlePoint c r n (i+1)).x) *
          ((circlePoint c r n i).x * (circlePoint c r n (i+1)).y
            - (circlePoint c r n (i+1)).x * (circlePoint c r n i).y)
        = 3*c.x*r^2*d
          + (2*c.x*c.x*r) * (Real.sin (2 * Real.pi * (↑i+1) / ↑n) - Real.sin (2 * Real.pi * ↑i / ↑n))
          + (2*c.x*c.y*r) * (Real.cos (2 * Real.pi * ↑i / ↑n) - Real.cos (2 * Real.pi * (↑i+1) / ↑n))
          + (c.x*r^2) * (Real.cos (2 * Real.pi * (↑i+1) / ↑n) * Real.sin (2 * Real.pi * (↑i+1) / ↑n)
              - Real.cos (2 * Real.pi * ↑i / ↑n) * Real.sin (2 * Real.pi * ↑i / ↑n))
          + (c.y*r^2) * (Real.cos (2 * Real.pi * ↑i / ↑n) * Real.cos (2 * Real.pi * ↑i / ↑n)
              - Real.cos (2 * Real.pi * (↑i+1) / ↑n) * Real.cos (2 * Real.pi * (↑i+1) / ↑n))
          + (r^3*d) * Real.cos (2 * Real.pi * ↑i / ↑n)
          + (r^3*d) * Real.cos (2 * Real.pi * (↑i+1) / ↑n) := by
      intro i _
      have h := hD i
      simp only [circlePoint_x, circlePoint_y]
      push_cast
      linear_combination (3*c.x*r^2
        + r^3*(Real.cos (2 * Real.pi * ↑i / ↑n) + Real.cos (2 * Real.pi * (↑i+1) / ↑n))) * h
    rw [Finset.sum_congr rfl key]
    simp only [Finset.sum_add_distrib, ← Finset.mul_sum]
    rw [htelS, htelC, htelU, htelC2, hC, hCs,
      Finset.sum_const, Finset.card_range, nsmul_eq_mul]
    ring
  have hY : centroidYnum (create_circle_geometry c r n) = 3 * c.y * ((n:ℝ) * (r^2 * d)) := by
    rw [centroidYnum, create_circle_geometry, pairSum_range_map]
    have key : ∀ i ∈ Finset.range n,
        ((circlePoint c r n i).y + (circlePoint c r n (i+1)).y) *
          ((circlePoint c r n i).x * (circlePoint c r n (i+1)).y
            - (circlePoint c r n (i+1)).x * (circlePoint c r n i).y)
        = 3*c.y*r^2*d
          + (2*c.y*c.x*r) * (Real.sin (2 * Real.pi * (↑i+1) / ↑n) - Real.sin (2 * Real.pi * ↑i / ↑n))
          + (2*c.y*c.y*r) * (Real.cos (2 * Real.pi * ↑i / ↑n) - Real.cos (2 * Real.pi * (↑i+1) / ↑n))
          + (c.x*r^2) * (Real.sin (2 * Real.pi * (↑i+1) / ↑n) * Real.sin (2 * Real.pi * (↑i+1) / ↑n)
              - Real.sin (2 * Real.pi * ↑i / ↑n) * Real.sin (2 * Real.pi * ↑i / ↑n))
          + (c.y*r^2) * (Real.cos (2 * Real.pi * ↑i / ↑n) * Real.sin (2 * Real.pi * ↑i / ↑n)
              - Real.cos (2 * Real.pi * (↑i+1) / ↑n) * Real.sin (2 * Real.pi * (↑i+1) / ↑n))
          + (r^3*d) * Real.sin (2 * Real.pi * ↑i / ↑n)
          + (r^3*d) * Real.sin (2 * Real.pi * (↑i+1) / ↑n) := by
      intro i _
      have h := hD i
      simp only [circlePoint_x, circlePoint_y]
      push_cast
      linear_combination (3*c.y*r^2
        + r^3*(Real.sin (2 * Real.pi * ↑i / ↑n) + Real.sin (2 * Real.pi * (↑i+1) / ↑n))) * h
    rw [Finset.sum_congr rfl key]
    simp only [Finset.sum_add_distrib, ← Finset.mul_sum]
    rw [htelS, htelC, htelS2, htelU', hS, hSs,
      Finset.sum_const, Finset.card_range, nsmul_eq_mul]
    ring
  have hKne : (n:ℝ) * (r^2 * d) ≠ 0 := by positivity
  show (⟨centroidXnum (create_circle_geometry c r n) / (3 * crossSum (create_circle_geometry c r n)),
        centroidYnum (create_circle_geometry c r n) / (3 * crossSum (create_circle_geometry c r n))⟩
      : PointXY) = c
  rw [hcross, hX, hY]
  obtain ⟨cx, cy⟩ := c
  simp only [PointXY.mk.injEq]
  constructor
  · field_simp
    ring
  · field_simp
    ring

lemma distance_point_on_circle (c : PointXY) (r a : ℝ) (hr : 0 ≤ r) :
    distance c ⟨c.x + r * Real.cos a, c.y + r * Real.sin a⟩ = r := by
  unfold distance
  show Real.sqrt ((c.x + r * Real.cos a - c.x) * (c.x + r * Real.cos a - c.x)
    + (c.y + r * Real.sin a - c.y) * (c.y + r * Real.sin a - c.y)) = r
  rw [show (c.x + r * Real.cos a - c.x) * (c.x + r * Real.cos a - c.x)
      + (c.y + r * Real.sin a - c.y) * (c.y + r * Real.sin a - c.y)
    = r^2 * (Real.sin a ^ 2 + Real.cos a ^ 2) from by ring]
  rw [Real.sin_sq_add_cos_sq, mul_one]
  exact Real.sqrt_sq hr

/-- C1: for every center, every radius `r ≥ 0` and every segment count
`n ≥ 3`, `create_circle_geometry` returns a single ring of exactly `n+1`
vertices, vertex `i` lying at `(center.x + r·cos(2πi/n),
center.y + r·sin(2πi/n))`, with the first and last vertices equal (the ring
is closed) and every vertex at distance `r` from the center. -/
theorem create_circle_geometry_closed_ring (center : PointXY) (r : ℝ) (n : ℕ)
    (hr : 0 ≤ r) (hn : 3 ≤ n) : circle_geometry_ok center r n := by
  have hn0 : (n:ℝ) ≠ 0 := Nat.cast_ne_zero.mpr (by omega)
  refine ⟨?_, ?_, ?_, ?_⟩
  · simp [create_circle_geometry]
  · intro i hi
    simp only [create_circle_geometry, List.getElem?_map]
    rw [List.getElem?_range hi]
    rfl
  · have hhead : (create_circle_geometry center r n).head? = some (circlePoint center r n 0) := by
      rw [create_circle_geometry, List.range_succ_eq_map]
      rfl
    have hlast : (create_circle_geometry center r n).getLast?
        = some (circlePoint center r n n) := by
      rw [create_circle_geometry, List.range_succ, List.map_append]
      exact List.getLast?_concat _
    rw [hhead, hlast]
    have : circlePoint center r n 0 = circlePoint center r n n := by
      simp only [circlePoint, PointXY.mk.injEq]
      rw [show 2 * Real.pi * ((n:ℕ):ℝ) / n = 2 * Real.pi from by field_simp]
      norm_num [Real.sin_two_pi, Real.cos_two_pi]
    rw [this]
  · intro p hp
    obtain ⟨i, _, rfl⟩ := List.mem_map.mp hp
    exact distance_point_on_circle center r _ hr

/-- Witness for C1 at center `(0,0)`, radius `1`, `n = 3`. -/
theorem create_circle_geometry_closed_ring_witness :
    (0:ℝ) ≤ 1 ∧ 3 ≤ 3 ∧ circle_geometry_ok ⟨0, 0⟩ 1 3 :=
  ⟨by norm_num, by norm_num,
    create_circle_geometry_closed_ring ⟨0, 0⟩ 1 3 (by norm_num) (by norm_num)⟩

/-- C2 counterexample: a drag of distance exactly `0.001` is NOT discarded.
The guard is `radius < 0.001` (strict), so at `radius = 0.001` the feature
IS appended (count 0 → 1) and the repaint/refresh/persistence side effects
all run. -/
theorem create_circle_at_exact_threshold_commits :
    ((create_circle [] false ⟨0, 0⟩ ⟨0.001, 0⟩).1).length = 1 ∧
    Event.triggerRepaint ∈ (create_circle [] false ⟨0, 0⟩ ⟨0.001, 0⟩).2.2 ∧
    Event.saveToShapefile ∈ (create_circle [] false ⟨0, 0⟩ ⟨0.001, 0⟩).2.2 := by
  have hd : distance ⟨0, 0⟩ ⟨0.001, 0⟩ = 0.001 := by
    unfold distance
    show Real.sqrt (((0.001:ℝ) - 0) * ((0.001:ℝ) - 0) + ((0:ℝ) - 0) * ((0:ℝ) - 0)) = 0.001
    rw [show ((0.001:ℝ) - 0) * ((0.001:ℝ) - 0) + ((0:ℝ) - 0) * ((0:ℝ) - 0) = (0.001:ℝ)^2
      from by norm_num]
    exact Real.sqrt_sq (by norm_num)
  have hnl : ¬ distance ⟨0, 0⟩ ⟨0.001, 0⟩ < 0.001 := by rw [hd]; exact lt_irrefl _
  refine ⟨?_, ?_, ?_⟩ <;> simp [create_circle, hnl]

/-- C2 as amended: for a drag of distance strictly below `0.001`,
`create_circle` is a no-op — the feature list is unchanged and no side
effect (no repaint, no canvas refresh, no persistence) is performed. -/
theorem create_circle_below_threshold_discards (layer : List Feature) (editable : Bool)
    (sp ep : PointXY) (h : distance sp ep < 0.001) :
    create_circle layer editable sp ep = (layer, editable, []) := by
  simp [create_circle, h]

/-- Witness for the amended C2: a zero-distance drag at the origin. -/
theorem create_circle_below_threshold_discards_witness :
    distance ⟨0, 0⟩ ⟨0, 0⟩ < 0.001 ∧
    create_circle [] false ⟨0, 0⟩ ⟨0, 0⟩ = ([], false, []) := by
  have h0 : distance ⟨0, 0⟩ ⟨0, 0⟩ = 0 := by
    unfold distance
    show Real.sqrt (((0:ℝ) - 0) * ((0:ℝ) - 0) + ((0:ℝ) - 0) * ((0:ℝ) - 0)) = 0
    rw [show ((0:ℝ) - 0) * ((0:ℝ) - 0) + ((0:ℝ) - 0) * ((0:ℝ) - 0) = 0 from by norm_num]
    exact Real.sqrt_zero
  have hlt : distance ⟨0, 0⟩ ⟨0, 0⟩ < 0.001 := by rw [h0]; norm_num
  exact ⟨hlt, create_circle_below_threshold_discards [] false ⟨0, 0⟩ ⟨0, 0⟩ hlt⟩

/-- C3: for a drag whose distance `r` exceeds the `0.001` threshold,
`create_circle` appends exactly one feature — the feature list becomes the
old list plus one new feature whose radius attribute is `r` and whose
geometry's centroid is the start point (the drag's center). -/
theorem create_circle_adds_one_feature (layer : List Feature) (editable : Bool)
    (sp ep : PointXY) (h : 0.001 < distance sp ep) :
    ((create_circle layer editable sp ep).1).length = layer.length + 1 ∧
    (create_circle layer editable sp ep).1
      = layer ++ [{ geometry := create_circle_geometry sp (distance sp ep) 36,
                    id_attr := none, radius_attr := some (distance sp ep) }] ∧
    ringCentroid (create_circle_geometry sp (distance sp ep) 36) = sp := by
  have hnl : ¬ distance sp ep < 0.001 := not_lt.mpr (le_of_lt h)
  refine ⟨?_, ?_, ?_⟩
  · simp [create_circle, hnl]
  · simp only [create_circle, hnl, if_false]
    rfl
  · exact ringCentroid_circle sp (distance sp ep) 36
      (lt_trans (by norm_num) h) (by norm_num)

/-- Witness for C3: the spec's example — radius `5.0` at center `(100, 200)`
(drag from `(100, 200)` to `(105, 200)`) on an empty layer. -/
theorem create_circle_adds_one_feature_witness :
    distance ⟨100, 200⟩ ⟨105, 200⟩ = 5 ∧
    0.001 < distance ⟨100, 200⟩ ⟨105, 200⟩ ∧
    (((create_circle [] false ⟨100, 200⟩ ⟨105, 200⟩).1).length = List.length ([] : List Feature) + 1 ∧
     (create_circle [] false ⟨100, 200⟩ ⟨105, 200⟩).1
       = [] ++ [{ geometry := create_circle_geometry ⟨100, 200⟩ (distance ⟨100, 200⟩ ⟨105, 200⟩) 36,
                  id_attr := none, radius_attr := some (distance ⟨100, 200⟩ ⟨105, 200⟩) }] ∧
     ringCentroid (create_circle_geometry ⟨100, 200⟩ (distance ⟨100, 200⟩ ⟨105, 200⟩) 36)
       = ⟨100, 200⟩) := by
  have hd : distance ⟨100, 200⟩ ⟨105, 200⟩ = 5 := by
    unfold distance
    show Real.sqrt (((105:ℝ) - 100) * ((105:ℝ) - 100) + ((200:ℝ) - 200) * ((200:ℝ) - 200)) = 5
    rw [show ((105:ℝ) - 100) * ((105:ℝ) - 100) + ((200:ℝ) - 200) * ((200:ℝ) - 200) = (5:ℝ)^2
      from by norm_num]
    exact Real.sqrt_sq (by norm_num)
  have hlt : (0.001:ℝ) < distance ⟨100, 200⟩ ⟨105, 200⟩ := by rw [hd]; norm_num
  exact ⟨hd, hlt, create_circle_adds_one_feature [] false ⟨100, 200⟩ ⟨105, 200⟩ hlt⟩

/-- C4 counterexample: a flush whose file write succeeds but whose reopen
fails does NOT leave the project registry untouched — the source removes the
old layer from the registry before checking the reopened layer's validity,
so the registry ends up empty instead of still holding the old handle. -/
theorem save_to_shapefile_reopen_failure_changes_registry :
    (save_to_shapefile hostExample true 1 false).project_layers = [] ∧
    hostExample.project_layers = [0] ∧
    (save_to_shapefile hostExample true 1 false).project_layers ≠ hostExample.project_layers := by
  refine ⟨rfl, rfl, ?_⟩
  decide

/-- C4 as amended: on a write failure the whole state (window handle,
registry, canvas and tool bindings) is exactly as before and no swap occurs;
on a reopen failure the window's `circle_layer` handle, the canvas layers
and the map-tool binding are unchanged and no new layer is registered — the
system keeps operating on the previous in-memory handle — but the old layer
has already been removed from the project registry. -/
theorem save_to_shapefile_failure_no_swap (s : HostState) (newLayer : ℕ) (v : Bool) :
    save_to_shapefile s false newLayer v = s ∧
    (save_to_shapefile s true newLayer false).circle_layer = s.circle_layer ∧
    (save_to_shapefile s true newLayer false).canvas_layers = s.canvas_layers ∧
    (save_to_shapefile s true newLayer false).map_tool_layer = s.map_tool_layer ∧
    (save_to_shapefile s true newLayer false).project_layers
      = s.project_layers.filter (· ≠ s.circle_layer) :=
  ⟨rfl, rfl, rfl, rfl, rfl⟩

/-- C5: in every execution of `CardExportWorker.run` — whether or not an
internal step raises — `finished` is emitted exactly once, it is the last
signal (so it follows every progress emission), the emitted progress values
are a prefix of `[10, 30, 60, 80, 100]`, and when no step raises they are
exactly `[10, 30, 60, 80, 100]`. -/
theorem run_signals_finished_once_after_progress :
    (∀ failAt : Option (Fin 4),
      (run_signals failAt).count ExportSignal.finished = 1 ∧
      (run_signals failAt).getLast? = some ExportSignal.finished ∧
      progressOf (run_signals failAt) <+: progressValues) ∧
    progressOf (run_signals none) = progressValues := by
  decide

/-- C6: the export job's parameters are captured at submission time.  If
submitting against `store` yields worker `w`, then `w`'s geometry, center,
radius and output path are snapshot values read from `store`'s last feature
at submission, and the outputs `run` computes from them (label data, map
extent, map layer list, PDF path) are identical under any two live stores —
i.e. under any store mutations performed after submission the running job
reads the same parameter values and never re-reads the live store. -/
theorem export_job_params_snapshot (lid : ℕ) (store : List Feature) (w : CardExportWorker)
    (h : export_card (some (lid, store)) = ExportCardResult.submitted w)
    (live1 live2 : ℕ → List Feature) :
    worker_run_outputs w live1 = worker_run_outputs w live2 ∧
    ∃ f, store.getLast? = some f ∧
      w.geom = f.geometry ∧ w.center = ringCentroid f.geometry ∧
      w.radius = f.radius_attr ∧ w.output_path = "card_export.pdf" := by
  refine ⟨rfl, ?_⟩
  have h' : (match store.getLast? with
      | none => ExportCardResult.warnNoCircles
      | some lastFeature =>
        ExportCardResult.submitted
          { project := 0, circle_layer := lid, geom := lastFeature.geometry,
            center := ringCentroid lastFeature.geometry, radius := lastFeature.radius_attr,
            output_path := "card_export.pdf" })
      = ExportCardResult.submitted w := h
  cases hlast : store.getLast? with
  | none => rw [hlast] at h'; exact absurd h' (by simp)
  | some f =>
    rw [hlast] at h'
    injection h' with hw
    exact ⟨f, rfl, by rw [← hw], by rw [← hw], by rw [← hw], by rw [← hw]⟩

/-- Witness for C6: a one-feature store, two different post-submission live
stores. -/
theorem export_job_params_snapshot_witness :
    export_card (some (7, [⟨[⟨1, 2⟩], none, some 5⟩]))
      = ExportCardResult.submitted
          ⟨0, 7, [⟨1, 2⟩], ringCentroid [⟨1, 2⟩], some 5, "card_export.pdf"⟩ ∧
    (worker_run_outputs ⟨0, 7, [⟨1, 2⟩], ringCentroid [⟨1, 2⟩], some 5, "card_export.pdf"⟩
        (fun _ => [])
      = worker_run_outputs ⟨0, 7, [⟨1, 2⟩], ringCentroid [⟨1, 2⟩], some 5, "card_export.pdf"⟩
        (fun _ => [⟨[], none, none⟩]) ∧
     ∃ f, ([⟨[⟨1, 2⟩], none, some 5⟩] : List Feature).getLast? = some f ∧
       ([⟨1, 2⟩] : List PointXY) = f.geometry ∧ ringCentroid [⟨1, 2⟩] = ringCentroid f.geometry ∧
       (some 5 : Option ℝ) = f.radius_attr ∧ "card_export.pdf" = "card_export.pdf") :=
  ⟨rfl, export_job_params_snapshot 7 [⟨[⟨1, 2⟩], none, some 5⟩] _ rfl _ _⟩

/-- C7: on every above-threshold commit the side effects happen in order
append feature → commit transaction → repaint → canvas refresh → invoke
persistence (after opening an edit session first when none was open); the
appended feature is in the store independent of the later flush outcome,
and a failed flush (`writeOk = false`) leaves the host bindings — hence the
in-memory store holding the committed circle — completely untouched. -/
theorem commit_side_effect_order (layer : List Feature) (editable : Bool)
    (sp ep : PointXY) (h : 0.001 ≤ distance sp ep) :
    (create_circle layer editable sp ep).2.2
      = (if editable then [] else [Event.startEditing]) ++
        [Event.addFeature, Event.commitChanges,
         Event.triggerRepaint, Event.canvasRefresh, Event.saveToShapefile] ∧
    (create_circle layer editable sp ep).1
      = layer ++ [{ geometry := create_circle_geometry sp (distance sp ep) 36,
                    id_attr := none, radius_attr := some (distance sp ep) }] ∧
    ∀ (host : HostState) (newLayer : ℕ) (v : Bool),
      save_to_shapefile host false newLayer v = host := by
  have hnl : ¬ distance sp ep < 0.001 := not_lt.mpr h
  refine ⟨?_, ?_, fun host newLayer v => rfl⟩
  · simp [create_circle, hnl]
  · simp only [create_circle, hnl, if_false]
    rfl

/-- Witness for C7: a drag of distance 5 from the origin, layer initially
empty and not in an edit session. -/
theorem commit_side_effect_order_witness :
    0.001 ≤ distance ⟨0, 0⟩ ⟨5, 0⟩ ∧
    ((create_circle [] false ⟨0, 0⟩ ⟨5, 0⟩).2.2
      = (if false then [] else [Event.startEditing]) ++
        [Event.addFeature, Event.commitChanges,
         Event.triggerRepaint, Event.canvasRefresh, Event.saveToShapefile] ∧
     (create_circle [] false ⟨0, 0⟩ ⟨5, 0⟩).1
      = [] ++ [{ geometry := create_circle_geometry ⟨0, 0⟩ (distance ⟨0, 0⟩ ⟨5, 0⟩) 36,
                 id_attr := none, radius_attr := some (distance ⟨0, 0⟩ ⟨5, 0⟩) }] ∧
     ∀ (host : HostState) (newLayer : ℕ) (v : Bool),
       save_to_shapefile host false newLayer v = host) := by
  have hd : distance ⟨0, 0⟩ ⟨5, 0⟩ = 5 := by
    unfold distance
    show Real.sqrt (((5:ℝ) - 0) * ((5:ℝ) - 0) + ((0:ℝ) - 0) * ((0:ℝ) - 0)) = 5
    rw [show ((5:ℝ) - 0) * ((5:ℝ) - 0) + ((0:ℝ) - 0) * ((0:ℝ) - 0) = (5:ℝ)^2 from by norm_num]
    exact Real.sqrt_sq (by norm_num)
  have hle : (0.001:ℝ) ≤ distance ⟨0, 0⟩ ⟨5, 0⟩ := by rw [hd]; norm_num
  exact ⟨hle, commit_side_effect_order [] false ⟨0, 0⟩ ⟨5, 0⟩ hle⟩

/-- C8: `export_card` is total on empty and missing stores: with no layer it
reports the "no layer" warning and submits nothing; with a layer holding no
features it reports the "no circles yet" warning and submits nothing; and
otherwise it submits exactly the last feature in insertion order
(`features[-1]`). -/
theorem export_card_guards (lid : ℕ) (features : List Feature) (f : Feature)
    (h : features.getLast? = some f) :
    export_card none = ExportCardResult.warnNoLayer ∧
    export_card (some (lid, [])) = ExportCardResult.warnNoCircles ∧
    export_card (some (lid, features))
      = ExportCardResult.submitted
          ⟨0, lid, f.geometry, ringCentroid f.geometry, f.radius_attr, "card_export.pdf"⟩ := by
  refine ⟨rfl, rfl, ?_⟩
  show (match features.getLast? with
      | none => ExportCardResult.warnNoCircles
      | some lastFeature =>
        ExportCardResult.submitted
          { project := 0, circle_layer := lid, geom := lastFeature.geometry,
            center := ringCentroid lastFeature.geometry, radius := lastFeature.radius_attr,
            output_path := "card_export.pdf" })
    = ExportCardResult.submitted
        ⟨0, lid, f.geometry, ringCentroid f.geometry, f.radius_attr, "card_export.pdf"⟩
  rw [h]

/-- Witness for C8: a two-feature store — the submitted feature is the
second (most recently added) one. -/
theorem export_card_guards_witness :
    ([⟨[], none, some 1⟩, ⟨[⟨3, 4⟩], none, some 2⟩] : List Feature).getLast?
      = some ⟨[⟨3, 4⟩], none, some 2⟩ ∧
    (export_card none = ExportCardResult.warnNoLayer ∧
     export_card (some (9, [])) = ExportCardResult.warnNoCircles ∧
     export_card (some (9, [⟨[], none, some 1⟩, ⟨[⟨3, 4⟩], none, some 2⟩]))
      = ExportCardResult.submitted
          ⟨0, 9, [⟨3, 4⟩], ringCentroid [⟨3, 4⟩], some 2, "card_export.pdf"⟩) := by
  have h : ([⟨[], none, some 1⟩, ⟨[⟨3, 4⟩], none, some 2⟩] : List Feature).getLast?
      = some ⟨[⟨3, 4⟩], none, some 2⟩ := rfl
  exact ⟨h, export_card_guards 9 _ _ h⟩

/-- C9: every left-button release received in the Drawing state (drawing
set, start point recorded) — including a zero-distance drag — completes
without error (the handler returns a state, never the crash marker) and
leaves the controller Idle: `drawing = false`, `start_point = none`, and
the rubber-band overlay removed (`rubber_band = none`). -/
theorem release_in_drawing_state_returns_idle (s : ToolState) (end_point p : PointXY)
    (hdraw : s.drawing = true) (hstart : s.start_point = some p) :
    ∃ s', canvasReleaseEvent s MouseButton.left end_point = some s' ∧
      s'.drawing = false ∧ s'.start_point = none ∧ s'.rubber_band = none := by
  unfold canvasReleaseEvent
  rw [hstart]
  simp [hdraw]

/-- Witness for C9: press at the origin from the freshly constructed tool,
then release at the very same point (zero-distance drag). -/
theorem release_in_drawing_state_returns_idle_witness :
    (canvasPressEvent (initToolState [] false) MouseButton.left ⟨0, 0⟩).drawing = true ∧
    (canvasPressEvent (initToolState [] false) MouseButton.left ⟨0, 0⟩).start_point
      = some ⟨0, 0⟩ ∧
    ∃ s', canvasReleaseEvent (canvasPressEvent (initToolState [] false) MouseButton.left ⟨0, 0⟩)
        MouseButton.left ⟨0, 0⟩ = some s' ∧
      s'.drawing = false ∧ s'.start_point = none ∧ s'.rubber_band = none := by
  have hdraw : (canvasPressEvent (initToolState [] false) MouseButton.left ⟨0, 0⟩).drawing
      = true := rfl
  have hstart : (canvasPressEvent (initToolState [] false) MouseButton.left ⟨0, 0⟩).start_point
      = some ⟨0, 0⟩ := rfl
  exact ⟨hdraw, hstart,
    release_in_drawing_state_returns_idle _ ⟨0, 0⟩ ⟨0, 0⟩ hdraw hstart⟩

/-- C10: the layer schema declares `id` and `radius`, but `create_circle`
fills only `radius` on the fresh feature; no operation ever sets `id`, so
after any sequence of committed drags every feature's `id` attribute is
still unset (`none`). -/
theorem id_attribute_never_set (layer : List Feature) (editable : Bool)
    (drags : List (PointXY × PointXY)) (h : ∀ f ∈ layer, f.id_attr = none) :
    ∀ f ∈ (create_circles layer editable drags).1, f.id_attr = none := by
  induction drags generalizing layer editable with
  | nil => exact h
  | cons d rest ih =>
    obtain ⟨sp, ep⟩ := d
    show ∀ f ∈ (create_circles (create_circle layer editable sp ep).1
        (create_circle layer editable sp ep).2.1 rest).1, f.id_attr = none
    apply ih
    intro f hf
    by_cases hc : distance sp ep < 0.001
    · simp only [create_circle, hc, if_true] at hf
      exact h f hf
    · simp only [create_circle, hc, if_false, List.mem_append, List.mem_singleton] at hf
      rcases hf with hf | rfl
      · exact h f hf
      · rfl

/-- Witness for C10: one above-threshold drag on the empty layer. -/
theorem id_attribute_never_set_witness :
    (∀ f ∈ ([] : List Feature), f.id_attr = none) ∧
    ∀ f ∈ (create_circles [] false [(⟨0, 0⟩, ⟨5, 0⟩)]).1, f.id_attr = none :=
  ⟨by simp, id_attribute_never_set [] false [(⟨0, 0⟩, ⟨5, 0⟩)] (by simp)⟩
